import Mathlib

/-! gh-hits-badge: counter store, read queries and stats handlers

A shallow embedding of `app.go`.  The SQLite table `counts(user, repo, count)`
is a list of rows; every `a.db` call is a function of that list.  A call to the
storage layer may fail for reasons outside the table (I/O, lock, corruption):
such a failure is an explicit `Option Err` argument of the call.  The log line
of `incrCount` (`log.Printf`) is not part of the state.

Go's `int` is taken to be 64 bits wide (`wrapInt`), and SQLite's `INTEGER` is
the signed 64-bit range, with `count + 1` promoted to `REAL` beyond it.
-/

namespace GhHitsBadge

/-! ## Machine integers -/

/-- Largest value of Go's `int` and of an SQLite `INTEGER`. -/
def maxInt : Int := 9223372036854775807

/-- Smallest value of Go's `int` and of an SQLite `INTEGER`. -/
def minInt : Int := -9223372036854775808

/-- Go's `int` arithmetic: two's complement wrap-around in 64 bits. -/
def wrapInt (x : Int) : Int :=
  (x + 9223372036854775808) % 18446744073709551616 - 9223372036854775808

/-! ## The `counts` table -/

/-- An error value (`error`), identified with a message; the messages of the
driver are shortened to their cause (no column index, no offending value). -/
abbrev Err := String

/-- A value of the `count INTEGER` column.  The column is nullable, and SQLite
keeps a `REAL` there when the value is not an integer of the 64-bit range. -/
inductive SqlValue where
  | integer (v : Int)
  | real
  | null
  deriving DecidableEq, Repr

/-- One row of `counts (user TEXT NOT NULL, repo TEXT NOT NULL, count INTEGER)`. -/
structure Counter where
  user : String
  repo : String
  count : SqlValue
  deriving DecidableEq, Repr

/-- The table, in rowid order. -/
abbrev Store := List Counter

/-- The condition `WHERE user = ? AND repo = ?` on one row. -/
def keyMatch (user repo : String) (c : Counter) : Bool :=
  decide (c.user = user) && decide (c.repo = repo)

/-- The constraint `PRIMARY KEY(user, repo)`: no two rows share a key. -/
def KeysUnique (db : Store) : Prop :=
  db.Pairwise (fun a b => ¬ (a.user = b.user ∧ a.repo = b.repo))

/-- The statement `SELECT count FROM counts WHERE user = ? AND repo = ?`: the
count of the first row with the key. -/
def selectCount (db : Store) (user repo : String) : Option SqlValue :=
  (db.find? (keyMatch user repo)).map (fun c => c.count)

/-- The conversion of `Scan(&count)` into a Go `int` (database/sql
`convertAssign`): an integer is stored, a `REAL` of this column and `NULL` are
refused. -/
def scanInt : SqlValue → Except Err Int
  | .integer v => .ok v
  | .real => .error "converting driver.Value type float64 to a int: invalid syntax"
  | .null => .error "converting NULL to int is unsupported"

/-- The outcome of `QueryRow(...).Scan(&count)`. -/
inductive ScanResult where
  | ok (count : Int)
  | errNoRows
  | failed (e : Err)
  deriving DecidableEq, Repr

/-- The call
`a.db.QueryRow("SELECT count FROM counts WHERE user = ? AND repo = ?", user, repo).Scan(&count)`. -/
def queryRowCount (db : Store) (fault : Option Err) (user repo : String) : ScanResult :=
  match fault with
  | some e => .failed e
  | none =>
    match selectCount db user repo with
    | none => .errNoRows
    | some v =>
      match scanInt v with
      | .ok n => .ok n
      | .error e => .failed e

/-- SQLite's `count + 1`: integer addition, `REAL` on overflow, `NULL` on `NULL`. -/
def sqlAddOne : SqlValue → SqlValue
  | .integer v => if v < maxInt then .integer (v + 1) else .real
  | .real => .real
  | .null => .null

/-- The call `a.db.Exec("INSERT INTO counts(user, repo, count) VALUES(?, ?, 1)", user, repo)`:
rejected by the primary key when the key is present; a failed statement leaves
the table as it was. -/
def execInsert (db : Store) (fault : Option Err) (user repo : String) : Except Err Store :=
  match fault with
  | some e => .error e
  | none =>
    if db.any (keyMatch user repo) then
      .error "UNIQUE constraint failed: counts.user, counts.repo"
    else
      .ok (db ++ [⟨user, repo, .integer 1⟩])

/-- The effect of `SET count = count + 1 WHERE user = ? AND repo = ?` on one row. -/
def bump (user repo : String) (c : Counter) : Counter :=
  if keyMatch user repo c then { c with count := sqlAddOne c.count } else c

/-- The call
`a.db.Exec("UPDATE counts SET count = count + 1 WHERE user = ? AND repo = ?", user, repo)`;
a statement that matches no row succeeds. -/
def execUpdate (db : Store) (fault : Option Err) (user repo : String) : Except Err Store :=
  match fault with
  | some e => .error e
  | none => .ok (db.map (bump user repo))

/-! ## `getCount` and `incrCount` -/

/-- Go `func (a *App) getCount(user, repo string) (int, error)`; the table is
passed through. -/
def getCount (db : Store) (fault : Option Err) (user repo : String) :
    Store × (Int × Option Err) :=
  match queryRowCount db fault user repo with
  | .errNoRows => (db, (0, none))
  | .failed e => (db, (-1, some e))
  | .ok count => (db, (count, none))

/-- The `switch` of `incrCount`, entered with the outcome of the `SELECT`
(`count` is still 0 when no row was found). -/
def incrCountWrite (db : Store) (fault : Option Err) (user repo : String) (scan : ScanResult) :
    Store × (Int × Option Err) :=
  match scan with
  | .errNoRows =>
    match execInsert db fault user repo with
    | .error e => (db, (-1, some e))
    | .ok db' => (db', (wrapInt (0 + 1), none))
  | .failed e => (db, (-1, some e))
  | .ok count =>
    match execUpdate db fault user repo with
    | .error e => (db, (-1, some e))
    | .ok db' => (db', (wrapInt (count + 1), none))

/-- Go `func (a *App) incrCount(user, repo string) (int, error)`: the `SELECT`
(failing with `selFault`), then the `INSERT` or `UPDATE` (failing with
`execFault`). -/
def incrCount (db : Store) (selFault execFault : Option Err) (user repo : String) :
    Store × (Int × Option Err) :=
  incrCountWrite db execFault user repo (queryRowCount db selFault user repo)

/-- Successive `incrCount(user, repo)` calls, one after the other, the `i`-th
with the storage failures `faults[i]`; the results are in call order. -/
def incrCountSeq (user repo : String) :
    Store → List (Option Err × Option Err) → Store × List (Int × Option Err)
  | db, [] => (db, [])
  | db, f :: rest =>
    let r := incrCount db f.1 f.2 user repo
    let rs := incrCountSeq user repo r.1 rest
    (rs.1, r.2 :: rs.2)

/-! ## Row scans: `getRepoCounts` and `getUserRepoCounts` -/

/-- Go `type RepoCount struct`. -/
structure RepoCount where
  repo : String
  count : Int
  deriving DecidableEq, Repr

/-- Go `type UserRepoCount struct`. -/
structure UserRepoCount where
  user : String
  repo : String
  count : Int
  deriving DecidableEq, Repr

/-- How a call ends: it returns `(result, err)` to its caller, or `log.Fatal`
has ended the process (`os.Exit(1)`) and nothing is returned. -/
inductive Outcome (α : Type) where
  | returned (result : List α) (err : Option Err)
  | fatal (e : Err)
  deriving DecidableEq, Repr

/-- Storage failures of a row scan that do not come from the table: `query` is
the error of `a.db.Query`; `next = some i` makes `rows.Next()` return false
instead of delivering row `i` (the error stays in `rows.Err()`). -/
structure RowsFault where
  query : Option Err
  next : Option Nat
  deriving DecidableEq, Repr

/-- No storage failure. -/
def RowsFault.none : RowsFault := ⟨Option.none, Option.none⟩

/-- The order of `ORDER BY repo`: BINARY collation compares the texts character by
character, a proper prefix first. -/
def repoLe (a b : Counter) : Prop := a.repo.toList ≤ b.repo.toList

instance : DecidableRel repoLe :=
  fun a b => inferInstanceAs (Decidable (a.repo.toList ≤ b.repo.toList))

/-- The order of `ORDER BY user, repo`: by `user`, and by `repo` among equal users. -/
def userRepoLe (a b : Counter) : Prop :=
  a.user.toList < b.user.toList ∨ (a.user = b.user ∧ a.repo.toList ≤ b.repo.toList)

instance : DecidableRel userRepoLe :=
  fun a b => inferInstanceAs
    (Decidable (a.user.toList < b.user.toList ∨ (a.user = b.user ∧ a.repo.toList ≤ b.repo.toList)))

/-- The rows of `SELECT repo, count FROM counts WHERE user = ? ORDER BY repo`. -/
def selectRepoCounts (db : Store) (user : String) : List Counter :=
  (db.filter (fun c => decide (c.user = user))).insertionSort repoLe

/-- The rows of `SELECT user, repo, count FROM counts ORDER BY user, repo`. -/
def selectUserRepoCounts (db : Store) : List Counter :=
  db.insertionSort userRepoLe

/-- The rows that `rows.Next()` delivers before it returns false. -/
def delivered (rows : List Counter) : Option Nat → List Counter
  | Option.none => rows
  | some i => rows.take i

/-- The `for rows.Next()` loop of `getRepoCounts`. -/
def scanRepoCounts : List Counter → List RepoCount → Outcome RepoCount
  | [], result => .returned result none
  | c :: rest, result =>
    match scanInt c.count with
    | .error e => .fatal e
    | .ok count => scanRepoCounts rest (result ++ [⟨c.repo, count⟩])

/-- Go `func (a *App) getRepoCounts(user string) ([]*RepoCount, error)`; the nil
slice of the error return is the empty list. -/
def getRepoCounts (db : Store) (fault : RowsFault) (user : String) : Outcome RepoCount :=
  match fault.query with
  | some e => .returned [] (some e)
  | Option.none => scanRepoCounts (delivered (selectRepoCounts db user) fault.next) []

/-- The `for rows.Next()` loop of `getUserRepoCounts`. -/
def scanUserRepoCounts : List Counter → List UserRepoCount → Outcome UserRepoCount
  | [], result => .returned result none
  | c :: rest, result =>
    match scanInt c.count with
    | .error e => .fatal e
    | .ok count => scanUserRepoCounts rest (result ++ [⟨c.user, c.repo, count⟩])

/-- Go `func (a *App) getUserRepoCounts() ([]*UserRepoCount, error)`; the nil
slice of the error return is the empty list. -/
def getUserRepoCounts (db : Store) (fault : RowsFault) : Outcome UserRepoCount :=
  match fault.query with
  | some e => .returned [] (some e)
  | Option.none => scanUserRepoCounts (delivered (selectUserRepoCounts db) fault.next) []

/-! ## `serveStats` -/

/-- What a handler sends: the status code and everything written to `w`. -/
structure Response where
  status : Nat
  body : String
  deriving DecidableEq, Repr

/-- Go `fmt.Sprintf("%d", n)`. -/
def fmtInt (n : Int) : String := toString n

/-- The `for i, item := range counts` loop of `serveStats`: `last_user` and the
bytes written so far are threaded through. -/
def serveStatsLoop : List UserRepoCount → Nat → String → String → String × String
  | [], _, last_user, body => (last_user, body)
  | item :: rest, i, last_user, body =>
    if i = 0 then
      serveStatsLoop rest (i + 1) item.user
        (body ++ ("\n  \"" ++ item.user ++ "\": \x7b")
              ++ ("\n    \"" ++ item.repo ++ "\": " ++ fmtInt item.count))
    else if item.user = last_user then
      serveStatsLoop rest (i + 1) last_user
        (body ++ (",\n    \"" ++ item.repo ++ "\": " ++ fmtInt item.count))
    else
      serveStatsLoop rest (i + 1) item.user
        (body ++ (",\n  \"" ++ item.user ++ "\": \x7b")
              ++ ("\n    \"" ++ item.repo ++ "\": " ++ fmtInt item.count))

/-- Go `func (a *App) serveStats(w http.ResponseWriter, r *http.Request)`, given
what `a.getUserRepoCounts()` returned. -/
def serveStats (counts : List UserRepoCount) (err : Option Err) : Response :=
  match err with
  | some e => ⟨500, "\x7b\"error\": \"" ++ e ++ "\"\x7d"⟩
  | Option.none =>
    let r := serveStatsLoop counts 0 "" "\x7b"
    if r.1 ≠ "" then ⟨200, r.2 ++ "\n  \x7d\n\x7d"⟩ else ⟨200, r.2 ++ "\n\x7d"⟩

/-! ## A reader of JSON texts

The grammar of RFC 8259 for the texts the handlers write: objects, strings
without escapes, integers, whitespace.  Characters are named by code point:
34 the quote, 44 the comma, 45 the minus, 58 the colon, 123 and 125 the braces. -/

/-- JSON insignificant whitespace. -/
def isJsonSpace (c : Char) : Bool :=
  c.toNat = 32 || c.toNat = 10 || c.toNat = 9 || c.toNat = 13

/-- Drops leading whitespace. -/
def skipSpace : List Char → List Char
  | [] => []
  | c :: cs => if isJsonSpace c then skipSpace cs else c :: cs

/-- Reads the rest of a string after its opening quote (no escapes occur in
the texts read here): the contents and what follows the closing quote. -/
def readString : List Char → Option (List Char × List Char)
  | [] => Option.none
  | c :: cs =>
    if c.toNat = 34 then some ([], cs)
    else if c.toNat = 92 ∨ c.toNat < 32 then Option.none
    else (readString cs).map (fun p => (c :: p.1, p.2))

/-- Drops a non-empty run of decimal digits. -/
def readDigits : List Char → Option (List Char)
  | [] => Option.none
  | c :: cs => if c.isDigit then some (cs.dropWhile Char.isDigit) else Option.none

/-- Reads a JSON integer: an optional minus and digits. -/
def readNumber : List Char → Option (List Char)
  | [] => Option.none
  | c :: cs => if c.toNat = 45 then readDigits cs else readDigits (c :: cs)

mutual
/-- Reads a JSON value (an object or an integer) after optional whitespace and
returns what follows it. -/
def readValue : Nat → List Char → Option (List Char)
  | 0, _ => Option.none
  | fuel + 1, cs =>
    match skipSpace cs with
    | [] => Option.none
    | c :: rest =>
      if c.toNat = 123 then
        match skipSpace rest with
        | [] => Option.none
        | d :: rest2 => if d.toNat = 125 then some rest2 else readMembers fuel (d :: rest2)
      else readNumber (c :: rest)
/-- Reads `"name": value` members separated by commas, then the closing brace. -/
def readMembers : Nat → List Char → Option (List Char)
  | 0, _ => Option.none
  | fuel + 1, cs =>
    match skipSpace cs with
    | [] => Option.none
    | q :: rest =>
      if q.toNat = 34 then
        match readString rest with
        | Option.none => Option.none
        | some (_, after) =>
          match skipSpace after with
          | [] => Option.none
          | colon :: rest2 =>
            if colon.toNat = 58 then
              match readValue fuel rest2 with
              | Option.none => Option.none
              | some after2 =>
                match skipSpace after2 with
                | [] => Option.none
                | e :: rest3 =>
                  if e.toNat = 125 then some rest3
                  else if e.toNat = 44 then readMembers fuel rest3
                  else Option.none
            else Option.none
      else Option.none
end

/-- A text is a well-formed JSON value when one value, and only whitespace
after it, can be read from it. -/
def isJson (s : String) : Bool :=
  match readValue (s.length + 1) s.data with
  | Option.none => false
  | some rest => (skipSpace rest).isEmpty

/-! ## Route patterns -/

/-- An item of a regular-expression bracket expression. -/
inductive ClassItem where
  | range (lo hi : Char)
  | single (c : Char)
  deriving DecidableEq, Repr

/-- Whether the item admits the character (ranges are by code point). -/
def ClassItem.admits (c : Char) : ClassItem → Bool
  | .range lo hi => decide (lo.toNat ≤ c.toNat) && decide (c.toNat ≤ hi.toNat)
  | .single d => decide (c = d)

/-- The bracket expression `[A-ZA-z0-9_.-]` of every `{user:...}` and
`{repo:...}` in `initializeRoutes`. -/
def segmentClass : List ClassItem :=
  [.range 'A' 'Z', .range 'A' 'z', .range '0' '9', .single '_', .single '.', .single '-']

/-- A path segment against `[A-ZA-z0-9_.-]+`, anchored at both ends. -/
def segmentAccepts (s : String) : Bool :=
  !s.data.isEmpty && s.data.all (fun c => segmentClass.any (ClassItem.admits c))

/-- The class `[A-Za-z0-9_.-]` as the specification words it: ASCII letters,
digits, underscore, dot, hyphen. -/
def specSegmentChar (c : Char) : Bool :=
  (decide (65 ≤ c.toNat) && decide (c.toNat ≤ 90)) ||
  (decide (97 ≤ c.toNat) && decide (c.toNat ≤ 122)) ||
  (decide (48 ≤ c.toNat) && decide (c.toNat ≤ 57)) ||
  decide (c = '_') || decide (c = '.') || decide (c = '-')

/-! ## Concurrent `incrCount` calls -/

/-- Where one `incrCount` call stands: before its `SELECT`, between the
`SELECT` and the `INSERT` or `UPDATE`, or returned. -/
inductive CallState where
  | start
  | selected (scan : ScanResult)
  | done (count : Int) (err : Option Err)
  deriving DecidableEq, Repr

/-- The next storage step of a call (no storage failure from outside). -/
def stepCall (user repo : String) (db : Store) : CallState → Store × CallState
  | .start => (db, .selected (queryRowCount db none user repo))
  | .selected scan =>
    let r := incrCountWrite db none user repo scan
    (r.1, .done r.2.1 r.2.2)
  | .done count err => (db, .done count err)

/-- Runs the calls in the order of the schedule: each entry lets the call of
that index take its next step. -/
def runSchedule (user repo : String) : List Nat → Store × List CallState → Store × List CallState
  | [], st => st
  | i :: rest, st =>
    match st.2.get? i with
    | Option.none => runSchedule user repo rest st
    | some c =>
      let r := stepCall user repo st.1 c
      runSchedule user repo rest (r.1, st.2.set i r.2)

/-- Whether the call has returned. -/
def CallState.isDone : CallState → Bool
  | .done _ _ => true
  | _ => false

/-- Whether the call has returned a nil error. -/
def CallState.succeeded : CallState → Bool
  | .done _ Option.none => true
  | _ => false

/-- Whether the call has returned an error. -/
def CallState.returnedError : CallState → Bool
  | .done _ (some _) => true
  | _ => false

/-- Whether the call stands between a `SELECT` that found no row and its `INSERT`. -/
def CallState.awaitsInsert : CallState → Bool
  | .selected .errNoRows => true
  | _ => false

/-- The table and the `K` calls after the steps of the schedule, from a table
`db` on which no call has taken a step. -/
def concurrentCalls (user repo : String) (db : Store) (K : Nat) (sched : List Nat) :
    Store × List CallState :=
  runSchedule user repo sched (db, List.replicate K .start)

/-- What holds of the table and the calls at every point of an interleaving from
a fresh key: the stored count is the number of calls that have succeeded. -/
structure ConcInv (user repo : String) (st : Store × List CallState) : Prop where
  stored : (selectCount st.1 user repo = none ∧ st.2.countP CallState.succeeded = 0) ∨
    (∃ n : Int, selectCount st.1 user repo = some (.integer n) ∧
      n = (st.2.countP CallState.succeeded : Int) ∧ 1 ≤ n)
  absent : selectCount st.1 user repo = none →
    ∀ c ∈ st.2, c = .start ∨ c = .selected .errNoRows
  scans : ∀ c ∈ st.2, ∀ e, c ≠ .selected (.failed e)
  errs : ∀ c ∈ st.2, ∀ count e, c = .done count (some e) →
    count = -1 ∧ e = "UNIQUE constraint failed: counts.user, counts.repo"
  bound : (st.2.length : Int) ≤ maxInt

/-! ## Example tables and rows -/

/-- The table of the ordering example: bob's repos counted in the order zeta,
alpha, mid. -/
def bobStore : Store :=
  (incrCount (incrCount (incrCount [] none none "bob" "zeta").1 none none "bob" "alpha").1
    none none "bob" "mid").1

/-- The table of the global ordering example. -/
def bobAliceStore : Store :=
  [⟨"bob", "zeta", .integer 2⟩, ⟨"alice", "proj", .integer 5⟩, ⟨"bob", "alpha", .integer 1⟩,
   ⟨"alice", "app", .integer 3⟩]

/-- A table whose second row has a `NULL` count. -/
def nullStore : Store :=
  [⟨"bob", "alpha", .integer 1⟩, ⟨"bob", "mid", .null⟩]

/-- Rows of two users, as `getUserRepoCounts` returns them. -/
def twoUserCounts : List UserRepoCount :=
  [⟨"alice", "a", 1⟩, ⟨"bob", "b", 2⟩]

/-! ## Lemmas on the table -/

theorem wrapInt_of_range (x : Int) (hlo : minInt ≤ x) (hhi : x ≤ maxInt) : wrapInt x = x := by
  unfold minInt at hlo
  unfold maxInt at hhi
  unfold wrapInt
  omega

theorem selectCount_nil (user repo : String) : selectCount [] user repo = none := rfl

theorem selectCount_cons (c : Counter) (db : Store) (user repo : String) :
    selectCount (c :: db) user repo =
      if keyMatch user repo c then some c.count else selectCount db user repo := by
  unfold selectCount
  rw [List.find?_cons]
  cases h : keyMatch user repo c <;> simp

theorem selectCount_eq_none_iff (db : Store) (user repo : String) :
    selectCount db user repo = none ↔ db.any (keyMatch user repo) = false := by
  induction db with
  | nil => simp [selectCount_nil]
  | cons c db ih =>
    rw [selectCount_cons, List.any_cons]
    cases h : keyMatch user repo c <;> simp [ih]

theorem selectCount_append_other (db : Store) (c : Counter) (user repo : String)
    (h : keyMatch user repo c = false) :
    selectCount (db ++ [c]) user repo = selectCount db user repo := by
  induction db with
  | nil => simp [selectCount_cons, selectCount_nil, h]
  | cons d db ih => simp only [List.cons_append, selectCount_cons, ih]

theorem selectCount_append_same (db : Store) (c : Counter) (user repo : String)
    (habs : selectCount db user repo = none) (h : keyMatch user repo c = true) :
    selectCount (db ++ [c]) user repo = some c.count := by
  induction db with
  | nil => simp [selectCount_cons, h]
  | cons d db ih =>
    rw [selectCount_cons] at habs
    cases hd : keyMatch user repo d
    · rw [hd] at habs
      simp only [List.cons_append, selectCount_cons, hd]
      exact ih (by simpa using habs)
    · rw [hd] at habs
      simp at habs

theorem keyMatch_bump (u1 r1 u2 r2 : String) (c : Counter) :
    keyMatch u2 r2 (bump u1 r1 c) = keyMatch u2 r2 c := by
  unfold bump
  split <;> simp [keyMatch]

theorem selectCount_map_bump_same (db : Store) (user repo : String) :
    selectCount (db.map (bump user repo)) user repo =
      (selectCount db user repo).map sqlAddOne := by
  induction db with
  | nil => rfl
  | cons c db ih =>
    rw [List.map_cons, selectCount_cons, selectCount_cons, keyMatch_bump]
    cases h : keyMatch user repo c
    · simpa using ih
    · simp [bump, h]

theorem selectCount_map_bump_other (db : Store) (u1 r1 u2 r2 : String)
    (hne : u1 ≠ u2 ∨ r1 ≠ r2) :
    selectCount (db.map (bump u1 r1)) u2 r2 = selectCount db u2 r2 := by
  induction db with
  | nil => rfl
  | cons c db ih =>
    rw [List.map_cons, selectCount_cons, selectCount_cons, keyMatch_bump, ih]
    cases h : keyMatch u2 r2 c
    · rfl
    · have h1 : keyMatch u1 r1 c = false := by
        simp only [keyMatch, Bool.and_eq_true, decide_eq_true_eq] at h
        simp only [keyMatch, Bool.and_eq_false_iff, decide_eq_false_iff_not]
        rcases hne with hu | hr
        · left; rw [h.1]; exact fun e => hu e.symm
        · right; rw [h.2]; exact fun e => hr e.symm
      simp [bump, h1]

theorem execUpdate_none (db : Store) (user repo : String) :
    execUpdate db none user repo = .ok (db.map (bump user repo)) := rfl

/-- The table after an `incrCount` call, whatever it returns. -/
theorem incrCount_store (db : Store) (selFault execFault : Option Err) (user repo : String) :
    (incrCount db selFault execFault user repo).1 = db ∨
    (selectCount db user repo = none ∧
      (incrCount db selFault execFault user repo).1 = db ++ [⟨user, repo, .integer 1⟩]) ∨
    (incrCount db selFault execFault user repo).1 = db.map (bump user repo) := by
  unfold incrCount incrCountWrite
  cases hq : queryRowCount db selFault user repo with
  | errNoRows =>
    dsimp only
    cases execFault with
    | some e => left; rfl
    | none =>
      unfold execInsert
      dsimp only
      cases hany : db.any (keyMatch user repo)
      · right; left
        exact ⟨(selectCount_eq_none_iff db user repo).2 hany, by simp⟩
      · left; simp
  | failed e => left; rfl
  | ok count =>
    dsimp only
    cases execFault with
    | some e => left; rfl
    | none => right; right; rfl

/-! ## `incrCount` and `getCount`, one call at a time -/

/-- A result with a nil error, spelled out. -/
theorem result_of_nil_error (x : Store × (Int × Option Err)) (h : x.2.2 = none) :
    x = (x.1, (x.2.1, none)) := by
  obtain ⟨a, b, c⟩ := x
  simp only at h
  rw [h]

/-- What a successful `incrCount` does to the row of its key and what it returns. -/
theorem incrCount_ok (db db' : Store) (selFault execFault : Option Err)
    (user repo : String) (ret : Int)
    (hok : incrCount db selFault execFault user repo = (db', (ret, none))) :
    (selectCount db user repo = none →
      selectCount db' user repo = some (.integer 1) ∧ ret = 1) ∧
    (∀ N : Int, selectCount db user repo = some (.integer N) → minInt ≤ N → N < maxInt →
      selectCount db' user repo = some (.integer (N + 1)) ∧ ret = N + 1) := by
  unfold incrCount incrCountWrite at hok
  cases selFault with
  | some e => simp [queryRowCount] at hok
  | none =>
    unfold queryRowCount at hok
    dsimp only at hok
    cases hsel : selectCount db user repo with
    | none =>
      rw [hsel] at hok
      dsimp only at hok
      refine ⟨fun _ => ?_, fun N hN => by simp at hN⟩
      cases execFault with
      | some e => simp [execInsert] at hok
      | none =>
        have hany := (selectCount_eq_none_iff db user repo).1 hsel
        simp only [execInsert, hany] at hok
        simp only [Bool.false_eq_true, ↓reduceIte, Prod.mk.injEq, and_true] at hok
        obtain ⟨hdb, hret⟩ := hok
        subst hdb
        refine ⟨?_, ?_⟩
        · exact selectCount_append_same db _ user repo hsel (by simp [keyMatch])
        · rw [← hret]; decide
    | some v =>
      rw [hsel] at hok
      dsimp only at hok
      refine ⟨fun h => by simp at h, fun N hN hlo hhi => ?_⟩
      have hv : v = .integer N := by simpa using hN
      subst hv
      simp only [scanInt] at hok
      cases execFault with
      | some e => simp [execUpdate] at hok
      | none =>
        simp only [execUpdate, Prod.mk.injEq, and_true] at hok
        obtain ⟨hdb, hret⟩ := hok
        subst hdb
        refine ⟨?_, ?_⟩
        · rw [selectCount_map_bump_same, hsel]
          simp [sqlAddOne, hhi]
        · rw [← hret]
          apply wrapInt_of_range
          · omega
          · omega

/-- A call without a storage failure on a key that has no row or an integer
count returns a nil error. -/
theorem incrCount_no_fault_ok (db : Store) (user repo : String)
    (h : selectCount db user repo = none ∨ ∃ N, selectCount db user repo = some (.integer N)) :
    (incrCount db none none user repo).2.2 = none := by
  unfold incrCount incrCountWrite queryRowCount
  rcases h with h | ⟨N, h⟩
  · have hany := (selectCount_eq_none_iff db user repo).1 h
    simp [h, execInsert, hany]
  · simp [h, scanInt, execUpdate]

/-- C1: a successful `incrCount(user, repo)` is increment-and-get. When the table
has no row for the key, afterwards it has one with count 1 and the call returns
1; when it has count `N` (a 64-bit integer below the maximum), afterwards the
stored count is `N + 1` and the call returns `N + 1`. Without a storage failure
the call on such a key is successful. -/
theorem incrCount_increment_and_get (db : Store) (selFault execFault : Option Err)
    (user repo : String) :
    ((incrCount db selFault execFault user repo).2.2 = none →
      (selectCount db user repo = none →
        selectCount (incrCount db selFault execFault user repo).1 user repo =
          some (.integer 1) ∧
        (incrCount db selFault execFault user repo).2.1 = 1) ∧
      (∀ N : Int, selectCount db user repo = some (.integer N) → minInt ≤ N → N < maxInt →
        selectCount (incrCount db selFault execFault user repo).1 user repo =
          some (.integer (N + 1)) ∧
        (incrCount db selFault execFault user repo).2.1 = N + 1)) ∧
    (selFault = none → execFault = none →
      (selectCount db user repo = none ∨
        ∃ N, selectCount db user repo = some (.integer N)) →
      (incrCount db selFault execFault user repo).2.2 = none) := by
  refine ⟨fun hnil => ?_, fun h1 h2 h => ?_⟩
  · have hcall := result_of_nil_error _ hnil
    exact incrCount_ok db _ selFault execFault user repo _ hcall
  · subst h1 h2
    exact incrCount_no_fault_ok db user repo h

/-- Witness of C1 on a fresh key and on a key that stands at 41. -/
theorem incrCount_increment_and_get_witness :
    (selectCount (incrCount [] none none "alice" "proj").1 "alice" "proj" =
        some (.integer 1) ∧
      (incrCount [] none none "alice" "proj").2.1 = 1) ∧
    (selectCount (incrCount [⟨"alice", "proj", .integer 41⟩] none none "alice" "proj").1
        "alice" "proj" = some (.integer (41 + 1)) ∧
      (incrCount [⟨"alice", "proj", .integer 41⟩] none none "alice" "proj").2.1 = 41 + 1) :=
  ⟨((incrCount_increment_and_get [] none none "alice" "proj").1 (by decide)).1 (by decide),
   ((incrCount_increment_and_get [⟨"alice", "proj", .integer 41⟩] none none
      "alice" "proj").1 (by decide)).2 41 (by decide) (by decide) (by decide)⟩

/-- C4: `incrCount(u1, r1)` leaves the counter of every other key as it was:
`getCount(u2, r2)` returns the same before and after the call, whether the call
succeeds or fails. -/
theorem incrCount_key_isolation (db : Store) (selFault execFault fault : Option Err)
    (u1 r1 u2 r2 : String) (hne : u1 ≠ u2 ∨ r1 ≠ r2) :
    (getCount (incrCount db selFault execFault u1 r1).1 fault u2 r2).2 =
      (getCount db fault u2 r2).2 := by
  have hsel : selectCount (incrCount db selFault execFault u1 r1).1 u2 r2 =
      selectCount db u2 r2 := by
    rcases incrCount_store db selFault execFault u1 r1 with h | ⟨_, h⟩ | h
    · rw [h]
    · rw [h]
      apply selectCount_append_other
      simp only [keyMatch, Bool.and_eq_false_iff, decide_eq_false_iff_not]
      exact hne
    · rw [h]
      exact selectCount_map_bump_other db u1 r1 u2 r2 hne
  unfold getCount queryRowCount
  rw [hsel]
  cases fault with
  | some e => rfl
  | none =>
    dsimp only
    cases selectCount db u2 r2 with
    | none => rfl
    | some v => cases h : scanInt v <;> simp only [h]

/-- Witness of C4: incrementing alice/proj does not move bob/proj. -/
theorem incrCount_key_isolation_witness :
    (getCount (incrCount [⟨"bob", "proj", .integer 7⟩] none none "alice" "proj").1
        none "bob" "proj").2 = (7, none) :=
  (incrCount_key_isolation [⟨"bob", "proj", .integer 7⟩] none none none
    "alice" "proj" "bob" "proj" (Or.inl (by decide))).trans (by decide)

/-- C5: for a key with no row, `getCount` returns 0 and a nil error (and the
storage error when the query fails); whenever `getCount` returns an error, it is
the error of the `QueryRow(...).Scan` call; the table is never changed. -/
theorem getCount_unseen_key (db : Store) (user repo : String) :
    (selectCount db user repo = none →
      (getCount db none user repo).2 = (0, none) ∧
      ∀ e, (getCount db (some e) user repo).2 = (-1, some e)) ∧
    (∀ (fault : Option Err) (ret : Int) (e : Err),
      (getCount db fault user repo).2 = (ret, some e) →
        queryRowCount db fault user repo = .failed e) ∧
    (∀ fault : Option Err, (getCount db fault user repo).1 = db) := by
  refine ⟨fun h => ⟨?_, fun e => rfl⟩, ?_, ?_⟩
  · simp [getCount, queryRowCount, h]
  · intro fault ret e h
    unfold getCount at h
    cases hq : queryRowCount db fault user repo with
    | ok c => rw [hq] at h; simp at h
    | errNoRows => rw [hq] at h; simp at h
    | failed e2 =>
      rw [hq] at h
      simp only [Prod.mk.injEq, Option.some.injEq] at h
      rw [h.2]
  · intro fault
    unfold getCount
    cases queryRowCount db fault user repo <;> rfl

/-- Witness of C5: a key next to an existing counter reads as 0. -/
theorem getCount_unseen_key_witness :
    selectCount [⟨"alice", "proj", .integer 3⟩] "alice" "other" = none ∧
    (getCount [⟨"alice", "proj", .integer 3⟩] none "alice" "other").2 = (0, none) :=
  ⟨by decide,
   ((getCount_unseen_key [⟨"alice", "proj", .integer 3⟩] "alice" "other").1 (by decide)).1⟩

/-! ## Repeated increments -/

theorem incrCountSeq_cons (user repo : String) (db : Store) (f : Option Err × Option Err)
    (rest : List (Option Err × Option Err)) :
    incrCountSeq user repo db (f :: rest) =
      ((incrCountSeq user repo (incrCount db f.1 f.2 user repo).1 rest).1,
        (incrCount db f.1 f.2 user repo).2 ::
          (incrCountSeq user repo (incrCount db f.1 f.2 user repo).1 rest).2) := rfl

/-- From a row that stands at `m`, `n` successful calls lead to `m + n`. -/
theorem incrCountSeq_from_some (user repo : String) (faults : List (Option Err × Option Err)) :
    ∀ (db : Store) (m : Int), selectCount db user repo = some (.integer m) →
      minInt ≤ m → m + faults.length ≤ maxInt →
      (∀ r ∈ (incrCountSeq user repo db faults).2, r.2 = none) →
      selectCount (incrCountSeq user repo db faults).1 user repo =
        some (.integer (m + faults.length)) := by
  induction faults with
  | nil => intro db m h _ _ _; simpa [incrCountSeq] using h
  | cons f rest ih =>
    intro db m hsel hlo hhi hok
    rw [incrCountSeq_cons] at hok ⊢
    simp only [List.length_cons, Nat.cast_add, Nat.cast_one] at hhi ⊢
    have hhead : (incrCount db f.1 f.2 user repo).2.2 = none :=
      hok _ (List.mem_cons_self _ _)
    have hcall := result_of_nil_error _ hhead
    have hstep := ((incrCount_ok db _ f.1 f.2 user repo _ hcall).2 m hsel hlo (by omega)).1
    have hrec := ih _ (m + 1) hstep (by omega) (by omega)
      (fun r hr => hok r (List.mem_cons_of_mem _ hr))
    rw [hrec]
    congr 2
    omega

/-- From an unseen key, `n` successful calls lead to `n`. -/
theorem incrCountSeq_from_none (user repo : String) (faults : List (Option Err × Option Err))
    (db : Store) (hsel : selectCount db user repo = none)
    (hhi : (faults.length : Int) ≤ maxInt)
    (hok : ∀ r ∈ (incrCountSeq user repo db faults).2, r.2 = none) :
    (getCount (incrCountSeq user repo db faults).1 none user repo).2 =
      ((faults.length : Int), none) := by
  cases faults with
  | nil => simp [incrCountSeq, getCount, queryRowCount, hsel]
  | cons f rest =>
    rw [incrCountSeq_cons] at hok ⊢
    simp only [List.length_cons, Nat.cast_add, Nat.cast_one] at hhi ⊢
    have hhead : (incrCount db f.1 f.2 user repo).2.2 = none :=
      hok _ (List.mem_cons_self _ _)
    have hcall := result_of_nil_error _ hhead
    have hstep := ((incrCount_ok db _ f.1 f.2 user repo _ hcall).1 hsel).1
    have hrec := incrCountSeq_from_some user repo rest _ 1 hstep (by decide) (by omega)
      (fun r hr => hok r (List.mem_cons_of_mem _ hr))
    simp only [getCount, queryRowCount, hrec, scanInt]
    congr 1
    omega

/-- Without storage failures, calls from a row that stands at `m` all return a
nil error. -/
theorem incrCountSeq_no_fault_from_some (user repo : String) (n : Nat) :
    ∀ (db : Store) (m : Int), selectCount db user repo = some (.integer m) →
      minInt ≤ m → m + n ≤ maxInt →
      ∀ res ∈ (incrCountSeq user repo db (List.replicate n (none, none))).2, res.2 = none := by
  induction n with
  | zero => intro db m _ _ _ res hres; simp [incrCountSeq] at hres
  | succ k ih =>
    intro db m hsel hlo hhi res hres
    rw [List.replicate_succ, incrCountSeq_cons] at hres
    simp only [Nat.cast_add, Nat.cast_one] at hhi
    have hhead : (incrCount db none none user repo).2.2 = none :=
      incrCount_no_fault_ok db user repo (Or.inr ⟨m, hsel⟩)
    rcases List.mem_cons.1 hres with h | h
    · rw [h]; exact hhead
    · have hcall := result_of_nil_error _ hhead
      have hstep := ((incrCount_ok db _ none none user repo _ hcall).2 m hsel hlo (by omega)).1
      exact ih _ (m + 1) hstep (by omega) (by omega) res h

/-- Without storage failures, calls from an unseen key all return a nil error. -/
theorem incrCountSeq_no_fault_from_none (user repo : String) (n : Nat) (db : Store)
    (hsel : selectCount db user repo = none) (hhi : (n : Int) ≤ maxInt) :
    ∀ res ∈ (incrCountSeq user repo db (List.replicate n (none, none))).2, res.2 = none := by
  cases n with
  | zero => intro res hres; simp [incrCountSeq] at hres
  | succ k =>
    intro res hres
    rw [List.replicate_succ, incrCountSeq_cons] at hres
    simp only [Nat.cast_add, Nat.cast_one] at hhi
    have hhead : (incrCount db none none user repo).2.2 = none :=
      incrCount_no_fault_ok db user repo (Or.inl hsel)
    rcases List.mem_cons.1 hres with h | h
    · rw [h]; exact hhead
    · have hcall := result_of_nil_error _ hhead
      have hstep := ((incrCount_ok db _ none none user repo _ hcall).1 hsel).1
      exact incrCountSeq_no_fault_from_some user repo k _ 1 hstep (by decide) (by omega) res h

/-- C2: from a key with no row, after `N` successful `incrCount(u, r)` calls
made one after the other (`N` within Go's `int`), `getCount(u, r)` returns
exactly `N` and a nil error; and without storage failures all `N` calls are
successful. -/
theorem incrCount_n_times_getCount (db : Store) (u r : String) (N : Nat)
    (hunseen : selectCount db u r = none) (hN : (N : Int) ≤ maxInt) :
    (∀ res ∈ (incrCountSeq u r db (List.replicate N (none, none))).2, res.2 = none) ∧
    (∀ faults : List (Option Err × Option Err), faults.length = N →
      (∀ res ∈ (incrCountSeq u r db faults).2, res.2 = none) →
      (getCount (incrCountSeq u r db faults).1 none u r).2 = ((N : Int), none)) := by
  refine ⟨incrCountSeq_no_fault_from_none u r N db hunseen hN, ?_⟩
  intro faults hcalls hok
  subst hcalls
  exact incrCountSeq_from_none u r faults db hunseen hN hok

/-- Witness of C2: three increments of octo/hello-world read back as 3. -/
theorem incrCount_n_times_getCount_witness :
    (getCount (incrCountSeq "octo" "hello-world" []
        [(none, none), (none, none), (none, none)]).1 none "octo" "hello-world").2 =
      (((3 : Nat) : Int), none) :=
  (incrCount_n_times_getCount [] "octo" "hello-world" 3 (by decide) (by decide)).2
    [(none, none), (none, none), (none, none)] (by decide) (by decide)

/-! ## Ordered reads -/

instance : IsTotal Counter repoLe := ⟨fun a b => le_total a.repo.toList b.repo.toList⟩

instance : IsTrans Counter repoLe :=
  ⟨fun a b c hab hbc => by unfold repoLe at *; exact le_trans hab hbc⟩

instance : IsTotal Counter userRepoLe := by
  constructor
  intro a b
  unfold userRepoLe
  rcases lt_trichotomy a.user.toList b.user.toList with h | h | h
  · exact Or.inl (Or.inl h)
  · have hu : a.user = b.user := String.toList_inj.1 h
    rcases le_total a.repo.toList b.repo.toList with hr | hr
    · exact Or.inl (Or.inr ⟨hu, hr⟩)
    · exact Or.inr (Or.inr ⟨hu.symm, hr⟩)
  · exact Or.inr (Or.inl h)

instance : IsTrans Counter userRepoLe := by
  constructor
  intro a _ c hab hbc
  unfold userRepoLe at *
  rcases hab with h1 | ⟨h1, h1r⟩
  · rcases hbc with h2 | ⟨h2, _⟩
    · exact Or.inl (lt_trans h1 h2)
    · exact Or.inl (h2 ▸ h1)
  · rcases hbc with h2 | ⟨h2, h2r⟩
    · exact Or.inl (h1 ▸ h2)
    · exact Or.inr ⟨h1.trans h2, le_trans h1r h2r⟩

theorem selectRepoCounts_perm (db : Store) (user : String) :
    (selectRepoCounts db user).Perm (db.filter (fun c => decide (c.user = user))) :=
  List.perm_insertionSort _ _

theorem selectRepoCounts_sorted (db : Store) (user : String) :
    (selectRepoCounts db user).Sorted repoLe :=
  List.sorted_insertionSort _ _

theorem selectUserRepoCounts_perm (db : Store) : (selectUserRepoCounts db).Perm db :=
  List.perm_insertionSort _ _

theorem selectUserRepoCounts_sorted (db : Store) : (selectUserRepoCounts db).Sorted userRepoLe :=
  List.sorted_insertionSort _ _

/-- The loop of `getRepoCounts` over rows of one user with integer counts
appends one item per row, in order. -/
theorem scanRepoCounts_integer (user : String) (rows : List Counter) :
    ∀ acc : List RepoCount,
      (∀ c ∈ rows, c.user = user ∧ ∃ v, c.count = .integer v) →
      ∃ out : List RepoCount, scanRepoCounts rows acc = .returned (acc ++ out) none ∧
        out.map (fun rc => (⟨user, rc.repo, .integer rc.count⟩ : Counter)) = rows := by
  induction rows with
  | nil => intro acc _; exact ⟨[], by simp [scanRepoCounts], rfl⟩
  | cons c rest ih =>
    intro acc h
    obtain ⟨hu, v, hv⟩ := h c (List.mem_cons_self _ _)
    obtain ⟨out, hout, hmap⟩ := ih (acc ++ [⟨c.repo, v⟩])
      (fun d hd => h d (List.mem_cons_of_mem _ hd))
    refine ⟨⟨c.repo, v⟩ :: out, ?_, ?_⟩
    · simp only [scanRepoCounts, hv, scanInt]
      rw [hout, List.append_assoc]
      rfl
    · rw [List.map_cons, hmap]
      congr 1
      cases c
      simp only at hu hv
      subst hu hv
      rfl

/-- The loop of `getUserRepoCounts` over rows with integer counts appends one
item per row, in order. -/
theorem scanUserRepoCounts_integer (rows : List Counter) :
    ∀ acc : List UserRepoCount,
      (∀ c ∈ rows, ∃ v, c.count = .integer v) →
      ∃ out : List UserRepoCount, scanUserRepoCounts rows acc = .returned (acc ++ out) none ∧
        out.map (fun rc => (⟨rc.user, rc.repo, .integer rc.count⟩ : Counter)) = rows := by
  induction rows with
  | nil => intro acc _; exact ⟨[], by simp [scanUserRepoCounts], rfl⟩
  | cons c rest ih =>
    intro acc h
    obtain ⟨v, hv⟩ := h c (List.mem_cons_self _ _)
    obtain ⟨out, hout, hmap⟩ := ih (acc ++ [⟨c.user, c.repo, v⟩])
      (fun d hd => h d (List.mem_cons_of_mem _ hd))
    refine ⟨⟨c.user, c.repo, v⟩ :: out, ?_, ?_⟩
    · simp only [scanUserRepoCounts, hv, scanInt]
      rw [hout, List.append_assoc]
      rfl
    · rw [List.map_cons, hmap]
      congr 1
      cases c
      simp only at hv
      subst hv
      rfl

/-- A count that is neither `REAL` nor `NULL` is an integer. -/
theorem integer_of_ne (v : SqlValue) (h : v ≠ .real ∧ v ≠ .null) : ∃ n, v = .integer n := by
  cases v with
  | integer n => exact ⟨n, rfl⟩
  | real => exact absurd rfl h.1
  | null => exact absurd rfl h.2

/-- C7: `getRepoCounts(user)` returns the `{repo, count}` pairs of exactly the
rows of that user, each once, in ascending order of the repo name (strictly
ascending under the primary key), and a nil error; with no row of that user the
result is empty. -/
theorem getRepoCounts_sorted_by_repo (db : Store) (user : String)
    (hint : ∀ c ∈ db, c.user = user → c.count ≠ .real ∧ c.count ≠ .null) :
    ∃ rows : List RepoCount,
      getRepoCounts db RowsFault.none user = .returned rows none ∧
      (rows.map (fun rc => (⟨user, rc.repo, .integer rc.count⟩ : Counter))).Perm
        (db.filter (fun c => decide (c.user = user))) ∧
      rows.Pairwise (fun a b => a.repo.toList ≤ b.repo.toList) ∧
      (KeysUnique db → rows.Pairwise (fun a b => a.repo.toList < b.repo.toList)) ∧
      ((∀ c ∈ db, c.user ≠ user) → rows = []) := by
  have hperm := selectRepoCounts_perm db user
  have hrows : ∀ c ∈ selectRepoCounts db user, c.user = user ∧ ∃ v, c.count = .integer v := by
    intro c hc
    have hc2 := (List.mem_filter.1 (hperm.subset hc))
    have hu : c.user = user := by simpa using hc2.2
    exact ⟨hu, integer_of_ne c.count (hint c hc2.1 hu)⟩
  obtain ⟨out, hout, hmap⟩ := scanRepoCounts_integer user (selectRepoCounts db user) [] hrows
  have hsorted : out.Pairwise (fun a b => a.repo.toList ≤ b.repo.toList) := by
    have hs : List.Pairwise repoLe (selectRepoCounts db user) := selectRepoCounts_sorted db user
    rw [← hmap] at hs
    have hs2 : out.Pairwise (fun a b => repoLe (⟨user, a.repo, .integer a.count⟩ : Counter)
        ⟨user, b.repo, .integer b.count⟩) := List.pairwise_map.1 hs
    exact hs2
  refine ⟨out, ?_, ?_, hsorted, ?_, ?_⟩
  · simpa [getRepoCounts, RowsFault.none, delivered] using hout
  · rw [hmap]; exact hperm
  · intro huniq
    have hk : (selectRepoCounts db user).Pairwise
        (fun a b => ¬ (a.user = b.user ∧ a.repo = b.repo)) := by
      refine (List.Perm.pairwise_iff ?_ hperm).2 (List.Pairwise.filter _ huniq)
      intro a b h hba
      exact h ⟨hba.1.symm, hba.2.symm⟩
    rw [← hmap] at hk
    have hk2 := List.pairwise_map.1 hk
    refine (hsorted.and hk2).imp ?_
    intro a b h
    rcases lt_or_eq_of_le h.1 with hlt | heq
    · exact hlt
    · exact absurd ⟨rfl, String.toList_inj.1 heq⟩ h.2
  · intro hnone
    have hf : db.filter (fun c => decide (c.user = user)) = [] := by
      rw [List.filter_eq_nil_iff]
      intro c hc
      simpa using hnone c hc
    have hnil : selectRepoCounts db user = [] := by
      rw [hf] at hperm
      exact List.Perm.eq_nil hperm
    rw [hnil] at hmap
    simpa using hmap

/-- Witness of C7: repos inserted as zeta, alpha, mid come back as alpha, mid, zeta. -/
theorem getRepoCounts_sorted_by_repo_witness :
    bobStore = [⟨"bob", "zeta", .integer 1⟩, ⟨"bob", "alpha", .integer 1⟩,
      ⟨"bob", "mid", .integer 1⟩] ∧
    getRepoCounts bobStore RowsFault.none "bob" =
      .returned [⟨"alpha", 1⟩, ⟨"mid", 1⟩, ⟨"zeta", 1⟩] none ∧
    getRepoCounts bobStore RowsFault.none "nobody" = .returned [] none ∧
    ∃ rows : List RepoCount,
      getRepoCounts bobStore RowsFault.none "bob" = .returned rows none ∧
      (rows.map (fun rc => (⟨"bob", rc.repo, .integer rc.count⟩ : Counter))).Perm
        (bobStore.filter (fun c => decide (c.user = "bob"))) ∧
      rows.Pairwise (fun a b => a.repo.toList ≤ b.repo.toList) ∧
      (KeysUnique bobStore → rows.Pairwise (fun a b => a.repo.toList < b.repo.toList)) ∧
      ((∀ c ∈ bobStore, c.user ≠ "bob") → rows = []) :=
  ⟨by decide, by decide, by decide,
   getRepoCounts_sorted_by_repo bobStore "bob" (by decide)⟩

/-- C6: `getUserRepoCounts()` returns one `{user, repo, count}` row per row of
the table and a nil error, in ascending order of `(user, repo)` with the user
first, so that the rows between two rows of one user are rows of that user; on
the empty table the result is empty. -/
theorem getUserRepoCounts_sorted_by_user_repo (db : Store)
    (hint : ∀ c ∈ db, c.count ≠ .real ∧ c.count ≠ .null) :
    ∃ rows : List UserRepoCount,
      getUserRepoCounts db RowsFault.none = .returned rows none ∧
      (rows.map (fun rc => (⟨rc.user, rc.repo, .integer rc.count⟩ : Counter))).Perm db ∧
      rows.Pairwise (fun a b => a.user.toList < b.user.toList ∨
        (a.user = b.user ∧ a.repo.toList ≤ b.repo.toList)) ∧
      (∀ (p q s : List UserRepoCount) (a b : UserRepoCount),
        rows = p ++ a :: q ++ b :: s → a.user = b.user → ∀ c ∈ q, c.user = a.user) ∧
      (db = [] → rows = []) := by
  have hperm := selectUserRepoCounts_perm db
  have hrows : ∀ c ∈ selectUserRepoCounts db, ∃ v, c.count = .integer v :=
    fun c hc => integer_of_ne c.count (hint c (hperm.subset hc))
  obtain ⟨out, hout, hmap⟩ := scanUserRepoCounts_integer (selectUserRepoCounts db) [] hrows
  have hsorted : out.Pairwise (fun a b => a.user.toList < b.user.toList ∨
      (a.user = b.user ∧ a.repo.toList ≤ b.repo.toList)) := by
    have hs : List.Pairwise userRepoLe (selectUserRepoCounts db) :=
      selectUserRepoCounts_sorted db
    rw [← hmap] at hs
    have hs2 : out.Pairwise (fun a b => userRepoLe (⟨a.user, a.repo, .integer a.count⟩ : Counter)
        ⟨b.user, b.repo, .integer b.count⟩) := List.pairwise_map.1 hs
    exact hs2
  refine ⟨out, ?_, ?_, hsorted, ?_, ?_⟩
  · simpa [getUserRepoCounts, RowsFault.none, delivered] using hout
  · rw [hmap]; exact hperm
  · intro p q s a b hsplit hab c hc
    have husers : out.Pairwise (fun a b => a.user.toList ≤ b.user.toList) := by
      refine hsorted.imp ?_
      intro x y h
      rcases h with h | ⟨h, _⟩
      · exact le_of_lt h
      · rw [h]
    rw [hsplit, List.append_assoc, List.pairwise_append] at husers
    have hrest := husers.2.1
    rw [List.cons_append, List.pairwise_cons] at hrest
    have hac : a.user.toList ≤ c.user.toList := hrest.1 c (by simp [hc])
    have hcb : c.user.toList ≤ b.user.toList := by
      have := hrest.2
      rw [List.pairwise_append] at this
      exact this.2.2 c hc b (by simp)
    rw [← hab] at hcb
    exact String.toList_inj.1 (le_antisymm hcb hac)
  · intro hdb
    subst hdb
    have hnil : selectUserRepoCounts [] = [] := rfl
    rw [hnil] at hmap
    simpa using hmap

/-- Witness of C6: with rows of bob and alice, all alice rows (by repo) come
before all bob rows. -/
theorem getUserRepoCounts_sorted_by_user_repo_witness :
    getUserRepoCounts bobAliceStore RowsFault.none =
      .returned [⟨"alice", "app", 3⟩, ⟨"alice", "proj", 5⟩, ⟨"bob", "alpha", 1⟩,
        ⟨"bob", "zeta", 2⟩] none ∧
    getUserRepoCounts [] RowsFault.none = .returned [] none ∧
    ∃ rows : List UserRepoCount,
      getUserRepoCounts bobAliceStore RowsFault.none = .returned rows none ∧
      (rows.map (fun rc => (⟨rc.user, rc.repo, .integer rc.count⟩ : Counter))).Perm
        bobAliceStore ∧
      rows.Pairwise (fun a b => a.user.toList < b.user.toList ∨
        (a.user = b.user ∧ a.repo.toList ≤ b.repo.toList)) ∧
      (∀ (p q s : List UserRepoCount) (a b : UserRepoCount),
        rows = p ++ a :: q ++ b :: s → a.user = b.user → ∀ c ∈ q, c.user = a.user) ∧
      (bobAliceStore = [] → rows = []) :=
  ⟨by decide, by decide,
   getUserRepoCounts_sorted_by_user_repo bobAliceStore (by decide)⟩

/-! ## Failing row scans -/

/-- The loop of `getRepoCounts` never returns an error. -/
theorem scanRepoCounts_no_error (rows : List Counter) :
    ∀ (acc result : List RepoCount) (e : Err),
      scanRepoCounts rows acc ≠ .returned result (some e) := by
  induction rows with
  | nil => intro acc result e h; simp [scanRepoCounts] at h
  | cons c rest ih =>
    intro acc result e h
    unfold scanRepoCounts at h
    cases hs : scanInt c.count with
    | error e2 => rw [hs] at h; simp at h
    | ok v => rw [hs] at h; exact ih _ _ _ h

/-- The loop of `getUserRepoCounts` never returns an error. -/
theorem scanUserRepoCounts_no_error (rows : List Counter) :
    ∀ (acc result : List UserRepoCount) (e : Err),
      scanUserRepoCounts rows acc ≠ .returned result (some e) := by
  induction rows with
  | nil => intro acc result e h; simp [scanUserRepoCounts] at h
  | cons c rest ih =>
    intro acc result e h
    unfold scanUserRepoCounts at h
    cases hs : scanInt c.count with
    | error e2 => rw [hs] at h; simp at h
    | ok v => rw [hs] at h; exact ih _ _ _ h

/-- A row whose count does not scan ends the loop of `getRepoCounts` in `log.Fatal`. -/
theorem scanRepoCounts_fatal (rows : List Counter) :
    ∀ (acc : List RepoCount) (c : Counter) (e : Err), c ∈ rows → scanInt c.count = .error e →
      ∃ e2, scanRepoCounts rows acc = .fatal e2 := by
  induction rows with
  | nil => intro acc c e hc; simp at hc
  | cons d rest ih =>
    intro acc c e hc he
    unfold scanRepoCounts
    cases hs : scanInt d.count with
    | error e2 => exact ⟨e2, rfl⟩
    | ok v =>
      rcases List.mem_cons.1 hc with h | h
      · subst h; rw [he] at hs; cases hs
      · exact ih _ c e h he

/-- A row whose count does not scan ends the loop of `getUserRepoCounts` in `log.Fatal`. -/
theorem scanUserRepoCounts_fatal (rows : List Counter) :
    ∀ (acc : List UserRepoCount) (c : Counter) (e : Err), c ∈ rows →
      scanInt c.count = .error e → ∃ e2, scanUserRepoCounts rows acc = .fatal e2 := by
  induction rows with
  | nil => intro acc c e hc; simp at hc
  | cons d rest ih =>
    intro acc c e hc he
    unfold scanUserRepoCounts
    cases hs : scanInt d.count with
    | error e2 => exact ⟨e2, rfl⟩
    | ok v =>
      rcases List.mem_cons.1 hc with h | h
      · subst h; rw [he] at hs; cases hs
      · exact ih _ c e h he

/-- C8, as stated, fails: a row whose count does not scan ends the process
(`log.Fatal`) in both reads, and an iteration that stops after the first of two
rows returns that one row with a nil error. -/
theorem row_scan_failure_not_all_or_nothing :
    getRepoCounts nullStore RowsFault.none "bob" =
      .fatal "converting NULL to int is unsupported" ∧
    getUserRepoCounts nullStore RowsFault.none =
      .fatal "converting NULL to int is unsupported" ∧
    getRepoCounts nullStore ⟨none, some 1⟩ "bob" = .returned [⟨"alpha", 1⟩] none ∧
    getUserRepoCounts nullStore ⟨none, some 1⟩ = .returned [⟨"bob", "alpha", 1⟩] none := by
  decide

/-- C8 amended: when the query itself fails, both reads return the storage
error and no rows; neither ever returns rows together with an error; when the
scan of a delivered row fails, both end the process with `log.Fatal` and return
nothing. -/
theorem row_reads_on_failure (db : Store) (fault : RowsFault) (user : String) :
    (∀ e, fault.query = some e →
      getRepoCounts db fault user = .returned [] (some e) ∧
      getUserRepoCounts db fault = .returned [] (some e)) ∧
    (∀ rows e, getRepoCounts db fault user = .returned rows (some e) → rows = []) ∧
    (∀ rows e, getUserRepoCounts db fault = .returned rows (some e) → rows = []) ∧
    (∀ c e, fault.query = none → c ∈ delivered (selectRepoCounts db user) fault.next →
      scanInt c.count = .error e → ∃ e2, getRepoCounts db fault user = .fatal e2) ∧
    (∀ c e, fault.query = none → c ∈ delivered (selectUserRepoCounts db) fault.next →
      scanInt c.count = .error e → ∃ e2, getUserRepoCounts db fault = .fatal e2) := by
  refine ⟨?_, ?_, ?_, ?_, ?_⟩
  · intro e h
    simp [getRepoCounts, getUserRepoCounts, h]
  · intro rows e h
    unfold getRepoCounts at h
    cases hq : fault.query with
    | some e2 => rw [hq] at h; simp only [Outcome.returned.injEq] at h; exact h.1.symm
    | none => rw [hq] at h; exact absurd h (scanRepoCounts_no_error _ _ _ _)
  · intro rows e h
    unfold getUserRepoCounts at h
    cases hq : fault.query with
    | some e2 => rw [hq] at h; simp only [Outcome.returned.injEq] at h; exact h.1.symm
    | none => rw [hq] at h; exact absurd h (scanUserRepoCounts_no_error _ _ _ _)
  · intro c e hq hc he
    unfold getRepoCounts
    rw [hq]
    exact scanRepoCounts_fatal _ _ c e hc he
  · intro c e hq hc he
    unfold getUserRepoCounts
    rw [hq]
    exact scanUserRepoCounts_fatal _ _ c e hc he

/-- Witness of the amended C8: a failing query gives the error and no rows, and
a `NULL` count among bob's rows ends `getRepoCounts` in `log.Fatal`. -/
theorem row_reads_on_failure_witness :
    (getRepoCounts nullStore ⟨some "disk I/O error", none⟩ "bob" =
        .returned [] (some "disk I/O error") ∧
      getUserRepoCounts nullStore ⟨some "disk I/O error", none⟩ =
        .returned [] (some "disk I/O error")) ∧
    ∃ e2, getRepoCounts nullStore RowsFault.none "bob" = .fatal e2 :=
  ⟨(row_reads_on_failure nullStore ⟨some "disk I/O error", none⟩ "bob").1
      "disk I/O error" rfl,
   (row_reads_on_failure nullStore RowsFault.none "bob").2.2.2.1
      ⟨"bob", "mid", .null⟩ "converting NULL to int is unsupported" rfl (by decide) rfl⟩

/-! ## The body of `/stats` -/

/-- C9 fails on rows of two users: `serveStats` opens the object of the second
user without closing that of the first, so the body has three opening and two
closing braces and is not a JSON text, while the text with the first object
closed is one; rows of one user and the empty sequence give JSON texts. -/
theorem serveStats_two_users_body :
    (serveStats twoUserCounts none).body =
      "\x7b\n  \"alice\": \x7b\n    \"a\": 1,\n  \"bob\": \x7b\n    \"b\": 2\n  \x7d\n\x7d" ∧
    ((serveStats twoUserCounts none).body.toList.filter (fun c => c.toNat = 123)).length = 3 ∧
    ((serveStats twoUserCounts none).body.toList.filter (fun c => c.toNat = 125)).length = 2 ∧
    isJson (serveStats twoUserCounts none).body = false ∧
    isJson "\x7b\n  \"alice\": \x7b\n    \"a\": 1\n  \x7d,\n  \"bob\": \x7b\n    \"b\": 2\n  \x7d\n\x7d" = true ∧
    isJson (serveStats [⟨"alice", "a", 1⟩, ⟨"alice", "b", 2⟩] none).body = true ∧
    (serveStats [] none).body = "\x7b\n\x7d" ∧
    isJson (serveStats [] none).body = true := by
  decide

/-! ## Route patterns -/

/-- What the bracket expression of the routes admits: the class of the
specification and the code points 91 to 96 between `Z` and `a`. -/
theorem segmentClass_admits (c : Char) :
    segmentClass.any (ClassItem.admits c) =
      (specSegmentChar c || (decide (91 ≤ c.toNat) && decide (c.toNat ≤ 96))) := by
  have hA : ('A' : Char).toNat = 65 := rfl
  have hZ : ('Z' : Char).toNat = 90 := rfl
  have hz : ('z' : Char).toNat = 122 := rfl
  have h0 : ('0' : Char).toNat = 48 := rfl
  have h9 : ('9' : Char).toNat = 57 := rfl
  simp only [segmentClass, List.any_cons, List.any_nil, ClassItem.admits, specSegmentChar,
    hA, hZ, hz, h0, h9, Bool.or_false]
  rw [Bool.eq_iff_iff]
  simp only [Bool.or_eq_true, Bool.and_eq_true, decide_eq_true_eq]
  by_cases h1 : c = '_' <;> by_cases h2 : c = '.' <;> by_cases h3 : c = '-' <;>
    simp only [h1, h2, h3, or_true, true_or, or_false, false_or]
  omega

/-- C10 fails on the segment `^`: the pattern `[A-ZA-z0-9_.-]+` of the routes
accepts it although `^` is outside `[A-Za-z0-9_.-]`; in general the pattern
accepts the non-empty strings over that class and the code points 91 to 96. -/
theorem segment_pattern_accepts_caret :
    segmentAccepts "^" = true ∧ specSegmentChar '^' = false ∧
    ∀ s : String, segmentAccepts s = true ↔
      (s ≠ "" ∧ ∀ c ∈ s.toList,
        specSegmentChar c = true ∨ (91 ≤ c.toNat ∧ c.toNat ≤ 96)) := by
  refine ⟨by decide, by decide, fun s => ?_⟩
  unfold segmentAccepts
  simp only [Bool.and_eq_true, Bool.not_eq_true', List.all_eq_true, segmentClass_admits,
    Bool.or_eq_true, decide_eq_true_eq]
  constructor
  · rintro ⟨h1, h2⟩
    refine ⟨fun hs => ?_, h2⟩
    subst hs
    simp at h1
  · rintro ⟨h1, h2⟩
    refine ⟨?_, h2⟩
    cases hd : s.data with
    | nil => exact absurd (String.ext hd) h1
    | cons a l => rfl

/-! ## Interleaved `incrCount` calls -/

/-- The two steps of one call, taken back to back, are `incrCount`. -/
theorem stepCall_twice (user repo : String) (db : Store) :
    stepCall user repo (stepCall user repo db .start).1 (stepCall user repo db .start).2 =
      ((incrCount db none none user repo).1,
        .done (incrCount db none none user repo).2.1 (incrCount db none none user repo).2.2) :=
  rfl

theorem countP_set (p : CallState → Bool) (c c2 : CallState) :
    ∀ (l : List CallState) (i : Nat), l.get? i = some c →
      (l.set i c2).countP p + (if p c then 1 else 0) =
        l.countP p + (if p c2 then 1 else 0) := by
  intro l
  induction l with
  | nil => intro i h; simp at h
  | cons d l ih =>
    intro i h
    cases i with
    | zero =>
      simp only [List.get?_cons_zero, Option.some.injEq] at h
      subst h
      simp only [List.set_cons_zero, List.countP_cons]
      omega
    | succ j =>
      simp only [List.get?_cons_succ] at h
      have := ih j h
      simp only [List.set_cons_succ, List.countP_cons]
      omega

theorem set_same (c : CallState) :
    ∀ (l : List CallState) (i : Nat), l.get? i = some c → l.set i c = l := by
  intro l
  induction l with
  | nil => intro i h; simp at h
  | cons d l ih =>
    intro i h
    cases i with
    | zero =>
      simp only [List.get?_cons_zero, Option.some.injEq] at h
      rw [h, List.set_cons_zero]
    | succ j =>
      simp only [List.get?_cons_succ] at h
      rw [List.set_cons_succ, ih j h]

/-- Replacing one call by a call whose error, if any, is the primary-key error
keeps the errors of all calls of that kind. -/
theorem errs_set (calls : List CallState) (i : Nat) (c2 : CallState)
    (herrs : ∀ c ∈ calls, ∀ count e, c = .done count (some e) →
      count = -1 ∧ e = "UNIQUE constraint failed: counts.user, counts.repo")
    (h2 : ∀ count e, c2 = .done count (some e) →
      count = -1 ∧ e = "UNIQUE constraint failed: counts.user, counts.repo") :
    ∀ c ∈ calls.set i c2, ∀ count e, c = .done count (some e) →
      count = -1 ∧ e = "UNIQUE constraint failed: counts.user, counts.repo" := by
  intro c hc
  rcases List.mem_or_eq_of_mem_set hc with h | h
  · exact herrs c h
  · rw [h]; exact h2

theorem concInv_init (user repo : String) (db : Store) (K : Nat)
    (hfresh : selectCount db user repo = none) (hK : (K : Int) ≤ maxInt) :
    ConcInv user repo (db, List.replicate K .start) := by
  refine ⟨Or.inl ⟨hfresh, ?_⟩, ?_, ?_, ?_, by simpa using hK⟩
  · rw [List.countP_eq_zero]
    intro c hc
    rw [List.eq_of_mem_replicate hc]
    decide
  · intro _ c hc
    exact Or.inl (List.eq_of_mem_replicate hc)
  · intro c hc e h
    rw [List.eq_of_mem_replicate hc] at h
    cases h
  · intro c hc count e h
    rw [List.eq_of_mem_replicate hc] at h
    cases h

/-- One step of one call keeps the invariant. -/
theorem concInv_step (user repo : String) (db : Store) (calls : List CallState) (i : Nat)
    (c : CallState) (hget : calls.get? i = some c) (inv : ConcInv user repo (db, calls)) :
    ConcInv user repo ((stepCall user repo db c).1, calls.set i (stepCall user repo db c).2) := by
  have hmem : c ∈ calls := List.get?_mem hget
  obtain ⟨hstored, habsent, hscans, herrs, hbound⟩ := inv
  simp only at hstored habsent hscans herrs hbound
  have hlen : ((calls.set i (stepCall user repo db c).2).length : Int) ≤ maxInt := by
    simpa using hbound
  cases c with
  | start =>
    have hq : ∀ e, queryRowCount db none user repo ≠ .failed e := by
      intro e
      rcases hstored with ⟨h, _⟩ | ⟨n, h, _⟩ <;> simp [queryRowCount, h, scanInt]
    have hcnt := countP_set CallState.succeeded .start
      (.selected (queryRowCount db none user repo)) calls i hget
    simp only [CallState.succeeded, Bool.false_eq_true, ↓reduceIte, add_zero] at hcnt
    refine ⟨?_, ?_, ?_, errs_set calls i _ herrs (by intro count e h; simp [stepCall] at h),
      hlen⟩
    · simp only [stepCall, hcnt]
      exact hstored
    · intro hnone d hd
      rcases List.mem_or_eq_of_mem_set hd with h | h
      · exact habsent hnone d h
      · right
        rw [h]
        simp only [stepCall] at hnone ⊢
        simp [queryRowCount, hnone]
    · intro d hd e
      rcases List.mem_or_eq_of_mem_set hd with h | h
      · exact hscans d h e
      · rw [h]
        simp only [stepCall]
        intro heq
        exact hq e (by simpa using heq)
  | done count err =>
    have hset : calls.set i (.done count err) = calls := set_same _ calls i hget
    simp only [stepCall, hset]
    exact ⟨hstored, habsent, hscans, herrs, hbound⟩
  | selected scan =>
    cases scan with
    | failed e => exact absurd rfl (hscans _ hmem e)
    | errNoRows =>
      cases hany : db.any (keyMatch user repo) with
      | true =>
        have hstep : stepCall user repo db (.selected .errNoRows) =
            (db, .done (-1) (some "UNIQUE constraint failed: counts.user, counts.repo")) := by
          simp [stepCall, incrCountWrite, execInsert, hany]
        have hpresent : selectCount db user repo ≠ none := by
          intro h
          rw [(selectCount_eq_none_iff db user repo).1 h] at hany
          cases hany
        have hcnt := countP_set CallState.succeeded (.selected .errNoRows)
          (.done (-1) (some "UNIQUE constraint failed: counts.user, counts.repo")) calls i hget
        simp only [CallState.succeeded, Bool.false_eq_true, ↓reduceIte, add_zero] at hcnt
        rw [hstep]
        refine ⟨?_, ?_, ?_,
          errs_set calls i _ herrs (by intro count e h; cases h; exact ⟨rfl, rfl⟩),
          by simpa using hbound⟩
        · simp only [hcnt]
          exact hstored
        · intro hnone
          exact absurd hnone hpresent
        · intro d hd e
          rcases List.mem_or_eq_of_mem_set hd with h | h
          · exact hscans d h e
          · rw [h]; simp
      | false =>
        have hnone : selectCount db user repo = none :=
          (selectCount_eq_none_iff db user repo).2 hany
        have hstep : stepCall user repo db (.selected .errNoRows) =
            (db ++ [⟨user, repo, .integer 1⟩], .done (wrapInt (0 + 1)) none) := by
          simp [stepCall, incrCountWrite, execInsert, hany]
        have hcnt := countP_set CallState.succeeded (.selected .errNoRows)
          (.done (wrapInt (0 + 1)) none) calls i hget
        simp only [CallState.succeeded, Bool.false_eq_true, ↓reduceIte, add_zero] at hcnt
        have hsel : selectCount (db ++ [⟨user, repo, .integer 1⟩]) user repo =
            some (.integer 1) :=
          selectCount_append_same db _ user repo hnone (by simp [keyMatch])
        have hzero : calls.countP CallState.succeeded = 0 := by
          rcases hstored with ⟨_, h⟩ | ⟨n, h, _⟩
          · exact h
          · rw [hnone] at h; cases h
        rw [hstep]
        refine ⟨Or.inr ⟨1, hsel, ?_, le_refl _⟩, ?_, ?_,
          errs_set calls i _ herrs (by intro count e h; cases h), by simpa using hbound⟩
        · simp only [hcnt, hzero]
          rfl
        · intro h
          simp only at h
          rw [hsel] at h
          cases h
        · intro d hd e
          rcases List.mem_or_eq_of_mem_set hd with h | h
          · exact hscans d h e
          · rw [h]; simp
    | ok v =>
      have hpresent : selectCount db user repo ≠ none := by
        intro h
        rcases habsent h _ hmem with h2 | h2 <;> cases h2
      have hstep : stepCall user repo db (.selected (.ok v)) =
          (db.map (bump user repo), .done (wrapInt (v + 1)) none) := by
        simp [stepCall, incrCountWrite, execUpdate]
      have hcnt := countP_set CallState.succeeded (.selected (.ok v))
        (.done (wrapInt (v + 1)) none) calls i hget
      simp only [CallState.succeeded, Bool.false_eq_true, ↓reduceIte, add_zero] at hcnt
      have hlt : calls.countP CallState.succeeded < calls.length := by
        have := @List.countP_le_length _ CallState.succeeded
          (calls.set i (.done (wrapInt (v + 1)) none))
        rw [List.length_set] at this
        omega
      rcases hstored with ⟨h, _⟩ | ⟨n, hn, hcount, hpos⟩
      · exact absurd h hpresent
      · have hnlt : n < maxInt := by omega
        have hsel : selectCount (db.map (bump user repo)) user repo =
            some (.integer (n + 1)) := by
          rw [selectCount_map_bump_same, hn]
          simp [sqlAddOne, hnlt]
        rw [hstep]
        refine ⟨Or.inr ⟨n + 1, hsel, ?_, by omega⟩, ?_, ?_,
          errs_set calls i _ herrs (by intro count e h; cases h), by simpa using hbound⟩
        · simp only [hcnt, hcount]
          push_cast
          rfl
        · intro h
          simp only at h
          rw [hsel] at h
          cases h
        · intro d hd e
          rcases List.mem_or_eq_of_mem_set hd with h | h
          · exact hscans d h e
          · rw [h]; simp

/-- Every schedule keeps the invariant. -/
theorem concInv_run (user repo : String) (sched : List Nat) :
    ∀ st : Store × List CallState, ConcInv user repo st →
      ConcInv user repo (runSchedule user repo sched st) := by
  induction sched with
  | nil => intro st h; exact h
  | cons i rest ih =>
    intro st h
    unfold runSchedule
    cases hget : st.2.get? i with
    | none => exact ih st h
    | some c => exact ih _ (concInv_step user repo st.1 st.2 i c hget h)

theorem runSchedule_length (user repo : String) (sched : List Nat) :
    ∀ st : Store × List CallState, (runSchedule user repo sched st).2.length = st.2.length := by
  induction sched with
  | nil => intro st; rfl
  | cons i rest ih =>
    intro st
    unfold runSchedule
    cases hget : st.2.get? i with
    | none => exact ih st
    | some c => simp only [ih, List.length_set]

theorem runSchedule_append (user repo : String) (a b : List Nat) :
    ∀ st : Store × List CallState,
      runSchedule user repo (a ++ b) st = runSchedule user repo b (runSchedule user repo a st) := by
  induction a with
  | nil => intro st; rfl
  | cons i rest ih =>
    intro st
    simp only [List.cons_append, runSchedule]
    cases st.2.get? i with
    | none => exact ih st
    | some c => exact ih _

theorem get?_set_other (c2 : CallState) :
    ∀ (l : List CallState) (i j : Nat), i ≠ j → (l.set i c2).get? j = l.get? j := by
  intro l
  induction l with
  | nil => intro i j _; rfl
  | cons d l ih =>
    intro i j hij
    cases i with
    | zero =>
      cases j with
      | zero => exact absurd rfl hij
      | succ k => rfl
    | succ m =>
      cases j with
      | zero => rfl
      | succ k =>
        simp only [List.set_cons_succ, List.get?_cons_succ]
        exact ih m k (fun h => hij (by rw [h]))

theorem get?_set_self (c c2 : CallState) :
    ∀ (l : List CallState) (i : Nat), l.get? i = some c → (l.set i c2).get? i = some c2 := by
  intro l
  induction l with
  | nil => intro i h; simp at h
  | cons d l ih =>
    intro i h
    cases i with
    | zero => rfl
    | succ m =>
      simp only [List.get?_cons_succ] at h
      simp only [List.set_cons_succ, List.get?_cons_succ]
      exact ih m h

/-- A schedule leaves the calls it does not name where they stand. -/
theorem runSchedule_get_other (user repo : String) (sched : List Nat) (j : Nat)
    (hj : j ∉ sched) :
    ∀ st : Store × List CallState,
      (runSchedule user repo sched st).2.get? j = st.2.get? j := by
  induction sched with
  | nil => intro st; rfl
  | cons i rest ih =>
    intro st
    have hij : i ≠ j := fun h => hj (by rw [h]; exact List.mem_cons_self _ _)
    have hrest : j ∉ rest := fun h => hj (List.mem_cons_of_mem _ h)
    unfold runSchedule
    cases hget : st.2.get? i with
    | none => exact ih hrest st
    | some c =>
      simp only
      rw [ih hrest]
      exact get?_set_other _ st.2 i j hij

/-- A step on a table that has the row leaves it with the row. -/
theorem stepCall_present (user repo : String) (db : Store) (c : CallState)
    (h : selectCount db user repo ≠ none) :
    selectCount (stepCall user repo db c).1 user repo ≠ none := by
  cases c with
  | start => exact h
  | done count err => exact h
  | selected scan =>
    cases scan with
    | failed e => exact h
    | errNoRows =>
      have hany : db.any (keyMatch user repo) = true := by
        cases hb : db.any (keyMatch user repo) with
        | true => rfl
        | false => exact absurd ((selectCount_eq_none_iff db user repo).2 hb) h
      simpa [stepCall, incrCountWrite, execInsert, hany] using h
    | ok v =>
      have hstep : (stepCall user repo db (.selected (.ok v))).1 = db.map (bump user repo) := by
        simp [stepCall, incrCountWrite, execUpdate]
      rw [hstep, selectCount_map_bump_same]
      cases hs : selectCount db user repo with
      | none => exact absurd hs h
      | some v => simp

/-- Once the row is there, a step changes neither the number of calls that
have failed or are about to: a call fails exactly when its `SELECT` ran before
the row was inserted. -/
theorem doomed_step (user repo : String) (db : Store) (calls : List CallState) (i : Nat)
    (c : CallState) (hget : calls.get? i = some c) (inv : ConcInv user repo (db, calls))
    (hpresent : selectCount db user repo ≠ none) :
    (calls.set i (stepCall user repo db c).2).countP CallState.returnedError +
      (calls.set i (stepCall user repo db c).2).countP CallState.awaitsInsert =
    calls.countP CallState.returnedError + calls.countP CallState.awaitsInsert := by
  have hmem : c ∈ calls := List.get?_mem hget
  have he := countP_set CallState.returnedError c (stepCall user repo db c).2 calls i hget
  have ha := countP_set CallState.awaitsInsert c (stepCall user repo db c).2 calls i hget
  cases c with
  | start =>
    obtain ⟨n, hn⟩ : ∃ n, selectCount db user repo = some (.integer n) := by
      rcases inv.stored with ⟨h, _⟩ | ⟨n, h, _⟩
      · exact absurd h hpresent
      · exact ⟨n, h⟩
    have hstep : (stepCall user repo db .start).2 = .selected (.ok n) := by
      simp [stepCall, queryRowCount, hn, scanInt]
    rw [hstep] at he ha ⊢
    simp only [CallState.returnedError, CallState.awaitsInsert, Bool.false_eq_true,
      ↓reduceIte, add_zero] at he ha
    omega
  | done count err =>
    have hstep : (stepCall user repo db (.done count err)).2 = .done count err := rfl
    rw [hstep, set_same _ calls i hget]
  | selected scan =>
    cases scan with
    | failed e => exact absurd rfl (inv.scans _ hmem e)
    | errNoRows =>
      have hany : db.any (keyMatch user repo) = true := by
        cases hb : db.any (keyMatch user repo) with
        | true => rfl
        | false => exact absurd ((selectCount_eq_none_iff db user repo).2 hb) hpresent
      have hstep : (stepCall user repo db (.selected .errNoRows)).2 =
          .done (-1) (some "UNIQUE constraint failed: counts.user, counts.repo") := by
        simp [stepCall, incrCountWrite, execInsert, hany]
      rw [hstep] at he ha ⊢
      simp only [CallState.returnedError, CallState.awaitsInsert, Bool.false_eq_true,
        ↓reduceIte, add_zero] at he ha
      omega
    | ok v =>
      have hstep : (stepCall user repo db (.selected (.ok v))).2 =
          .done (wrapInt (v + 1)) none := by
        simp [stepCall, incrCountWrite, execUpdate]
      rw [hstep] at he ha ⊢
      simp only [CallState.returnedError, CallState.awaitsInsert, Bool.false_eq_true,
        ↓reduceIte, add_zero] at he ha
      omega

/-- Once the row is there, no schedule changes the number of calls that have
failed or are about to. -/
theorem doomed_run (user repo : String) (sched : List Nat) :
    ∀ st : Store × List CallState, ConcInv user repo st →
      selectCount st.1 user repo ≠ none →
      (runSchedule user repo sched st).2.countP CallState.returnedError +
        (runSchedule user repo sched st).2.countP CallState.awaitsInsert =
      st.2.countP CallState.returnedError + st.2.countP CallState.awaitsInsert := by
  induction sched with
  | nil => intro st _ _; rfl
  | cons i rest ih =>
    intro st inv hpresent
    unfold runSchedule
    cases hget : st.2.get? i with
    | none => exact ih st inv hpresent
    | some c =>
      simp only
      rw [ih _ (concInv_step user repo st.1 st.2 i c hget inv)
        (stepCall_present user repo st.1 c hpresent)]
      exact doomed_step user repo st.1 st.2 i c hget inv hpresent

/-- Before the first write: calls that run their `SELECT` one after the other on
a table without the row all find no row, and the table stays as it is. -/
theorem selects_before_write (user repo : String) (pre : List Nat) :
    ∀ st : Store × List CallState, selectCount st.1 user repo = none → pre.Nodup →
      (∀ j ∈ pre, st.2.get? j = some .start) →
      (runSchedule user repo pre st).1 = st.1 ∧
      (runSchedule user repo pre st).2.countP CallState.awaitsInsert =
        st.2.countP CallState.awaitsInsert + pre.length ∧
      (runSchedule user repo pre st).2.countP CallState.returnedError =
        st.2.countP CallState.returnedError ∧
      (∀ j ∈ pre, (runSchedule user repo pre st).2.get? j = some (.selected .errNoRows)) := by
  induction pre with
  | nil => intro st _ _ _; exact ⟨rfl, rfl, rfl, fun j hj => absurd hj (List.not_mem_nil j)⟩
  | cons i rest ih =>
    intro st habsent hnodup hstart
    have hi : st.2.get? i = some .start := hstart i (List.mem_cons_self _ _)
    have hirest : i ∉ rest := (List.nodup_cons.1 hnodup).1
    have hstep : stepCall user repo st.1 .start = (st.1, .selected .errNoRows) := by
      simp [stepCall, queryRowCount, habsent]
    have hrun : runSchedule user repo (i :: rest) st =
        runSchedule user repo rest (st.1, st.2.set i (.selected .errNoRows)) := by
      rw [runSchedule, hi]
      simp only [hstep]
    have hstart2 : ∀ j ∈ rest, (st.2.set i (.selected .errNoRows)).get? j = some .start := by
      intro j hj
      have hij : i ≠ j := fun h => hirest (by rw [h]; exact hj)
      rw [get?_set_other _ st.2 i j hij]
      exact hstart j (List.mem_cons_of_mem _ hj)
    obtain ⟨h1, h2, h3, h4⟩ := ih (st.1, st.2.set i (.selected .errNoRows)) habsent
      (List.nodup_cons.1 hnodup).2 hstart2
    have ha := countP_set CallState.awaitsInsert .start (.selected .errNoRows) st.2 i hi
    have he := countP_set CallState.returnedError .start (.selected .errNoRows) st.2 i hi
    simp only [CallState.returnedError, CallState.awaitsInsert, Bool.false_eq_true,
      ↓reduceIte, add_zero] at ha he
    rw [hrun]
    refine ⟨h1, ?_, ?_, ?_⟩
    · rw [h2, List.length_cons]; simp only at ha ⊢; omega
    · rw [h3]; exact he
    · intro j hj
      rcases List.mem_cons.1 hj with h | h
      · rw [h, runSchedule_get_other user repo rest i hirest]
        exact get?_set_self _ _ st.2 i hi
      · exact h4 j h

/-- Calls that have all returned have either succeeded or failed. -/
theorem countP_all_done (calls : List CallState) (hdone : ∀ c ∈ calls, c.isDone = true) :
    calls.countP CallState.succeeded + calls.countP CallState.returnedError = calls.length ∧
    calls.countP CallState.awaitsInsert = 0 := by
  induction calls with
  | nil => exact ⟨rfl, rfl⟩
  | cons c rest ih =>
    obtain ⟨h1, h2⟩ := ih (fun d hd => hdone d (List.mem_cons_of_mem _ hd))
    have hc := hdone c (List.mem_cons_self _ _)
    simp only [List.countP_cons, List.length_cons]
    cases c with
    | start => cases hc
    | selected scan => cases hc
    | done count err =>
      cases err with
      | none =>
        simp only [CallState.succeeded, CallState.returnedError, CallState.awaitsInsert,
          Bool.false_eq_true, ↓reduceIte]
        omega
      | some e =>
        simp only [CallState.succeeded, CallState.returnedError, CallState.awaitsInsert,
          Bool.false_eq_true, ↓reduceIte]
        omega

/-- The count of successes when `pre` lists the calls that run their `SELECT`
before the first write, which is the `INSERT` of call `i`. -/
theorem successes_after_selects (user repo : String) (db : Store) (K : Nat)
    (pre : List Nat) (i : Nat) (post : List Nat)
    (hfresh : selectCount db user repo = none) (hmax : (K : Int) ≤ maxInt)
    (hnodup : pre.Nodup) (hi : i ∈ pre) (hvalid : ∀ j ∈ pre, j < K)
    (hdone : ∀ c ∈ (concurrentCalls user repo db K (pre ++ i :: post)).2, c.isDone = true) :
    (concurrentCalls user repo db K (pre ++ i :: post)).2.countP CallState.succeeded +
      pre.length = K + 1 := by
  unfold concurrentCalls at hdone ⊢
  have hinit := concInv_init user repo db K hfresh hmax
  have hstart : ∀ j ∈ pre, (db, List.replicate K CallState.start).2.get? j = some .start := by
    intro j hj
    have hjK := hvalid j hj
    simp [List.getElem?_replicate, hjK]
  obtain ⟨h1, h2, h3, h4⟩ :=
    selects_before_write user repo pre (db, List.replicate K .start) hfresh hnodup hstart
  have hinv1 := concInv_run user repo pre _ hinit
  have hzeroA : (List.replicate K CallState.start).countP CallState.awaitsInsert = 0 := by
    rw [List.countP_eq_zero]
    intro c hc
    rw [List.eq_of_mem_replicate hc]
    decide
  have hzeroE : (List.replicate K CallState.start).countP CallState.returnedError = 0 := by
    rw [List.countP_eq_zero]
    intro c hc
    rw [List.eq_of_mem_replicate hc]
    decide
  simp only [hzeroA, hzeroE, Nat.zero_add] at h2 h3
  generalize hgen : runSchedule user repo pre (db, List.replicate K .start) = st1
    at h1 h2 h3 h4 hinv1
  have hgi : st1.2.get? i = some (.selected .errNoRows) := h4 i hi
  have habs1 : selectCount st1.1 user repo = none := by rw [h1]; exact hfresh
  have hany : st1.1.any (keyMatch user repo) = false :=
    (selectCount_eq_none_iff st1.1 user repo).1 habs1
  have hstep : stepCall user repo st1.1 (.selected .errNoRows) =
      (st1.1 ++ [⟨user, repo, .integer 1⟩], .done (wrapInt (0 + 1)) none) := by
    simp [stepCall, incrCountWrite, execInsert, hany]
  have hinv2 := concInv_step user repo st1.1 st1.2 i _ hgi hinv1
  rw [hstep] at hinv2
  have hpresent2 : selectCount (st1.1 ++ [⟨user, repo, .integer 1⟩]) user repo ≠ none := by
    rw [selectCount_append_same st1.1 _ user repo habs1 (by simp [keyMatch])]
    simp
  have ha := countP_set CallState.awaitsInsert (.selected .errNoRows)
    (.done (wrapInt (0 + 1)) none) st1.2 i hgi
  have he := countP_set CallState.returnedError (.selected .errNoRows)
    (.done (wrapInt (0 + 1)) none) st1.2 i hgi
  simp only [CallState.returnedError, CallState.awaitsInsert, Bool.false_eq_true,
    ↓reduceIte, add_zero] at ha he
  have hrun : runSchedule user repo (pre ++ i :: post) (db, List.replicate K .start) =
      runSchedule user repo post
        (st1.1 ++ [⟨user, repo, .integer 1⟩], st1.2.set i (.done (wrapInt (0 + 1)) none)) := by
    rw [runSchedule_append, hgen, runSchedule, hgi]
    simp only [hstep]
  have hdoomed := doomed_run user repo post _ hinv2 hpresent2
  have hlen := runSchedule_length user repo (pre ++ i :: post) (db, List.replicate K .start)
  rw [hrun] at hdone hlen ⊢
  obtain ⟨hsum, hnoA⟩ := countP_all_done _ hdone
  simp only [List.length_replicate] at hlen
  simp only at hdoomed
  omega

/-- C3, as stated, fails for K = 2: when both calls run their `SELECT` before
either `INSERT`, the second `INSERT` is rejected by the primary key, the call
returns an error, and `getCount` returns 1 afterwards. -/
theorem concurrent_incrCount_loses_update :
    runSchedule "octo" "hello-world" [0, 1, 0, 1] ([], [.start, .start]) =
      ([⟨"octo", "hello-world", .integer 1⟩],
       [.done 1 none,
        .done (-1) (some "UNIQUE constraint failed: counts.user, counts.repo")]) ∧
    (getCount (runSchedule "octo" "hello-world" [0, 1, 0, 1] ([], [.start, .start])).1
      none "octo" "hello-world").2 = (1, none) := by
  decide

/-- C3 amended: for every K ≥ 2 (within Go's `int`) and every interleaving of
the `SELECT` and `INSERT`/`UPDATE` steps of K `incrCount(u, r)` calls on a fresh
key that lets all of them return, `getCount(u, r)` afterwards returns the number
of calls that returned a nil error, which is at least 1 and at most K; every
other call returned -1 and the primary-key error of its `INSERT`. When `pre`
lists the calls that run their `SELECT` before the first write (the `INSERT` of
call `i`), that number is `K + 1 - pre.length`: it is K exactly when one call
alone runs its `SELECT` before the first write, as when the calls run one after
the other, and one update is lost for each further such call. -/
theorem concurrent_incrCount_counts_successes (db : Store) (u r : String) (K : Nat)
    (sched : List Nat)
    (hfresh : selectCount db u r = none)
    (hK : 2 ≤ K) (hmax : (K : Int) ≤ maxInt)
    (hdone : ∀ c ∈ (concurrentCalls u r db K sched).2, c.isDone = true) :
    (getCount (concurrentCalls u r db K sched).1 none u r).2 =
      ((((concurrentCalls u r db K sched).2.countP CallState.succeeded : Nat) : Int), none) ∧
    1 ≤ (concurrentCalls u r db K sched).2.countP CallState.succeeded ∧
    (concurrentCalls u r db K sched).2.countP CallState.succeeded ≤ K ∧
    (∀ c ∈ (concurrentCalls u r db K sched).2, c.succeeded = true ∨
      c = .done (-1) (some "UNIQUE constraint failed: counts.user, counts.repo")) ∧
    (∀ (pre : List Nat) (i : Nat) (post : List Nat), sched = pre ++ i :: post →
      pre.Nodup → i ∈ pre → (∀ j ∈ pre, j < K) →
      (concurrentCalls u r db K sched).2.countP CallState.succeeded + pre.length = K + 1 ∧
      ((concurrentCalls u r db K sched).2.countP CallState.succeeded = K ↔
        pre.length = 1)) := by
  have hformula : ∀ (pre : List Nat) (i : Nat) (post : List Nat), sched = pre ++ i :: post →
      pre.Nodup → i ∈ pre → (∀ j ∈ pre, j < K) →
      (concurrentCalls u r db K sched).2.countP CallState.succeeded + pre.length = K + 1 := by
    intro pre i post hsplit hnodup hi hvalid
    subst hsplit
    exact successes_after_selects u r db K pre i post hfresh hmax hnodup hi hvalid hdone
  have inv : ConcInv u r (concurrentCalls u r db K sched) :=
    concInv_run u r sched _ (concInv_init u r db K hfresh hmax)
  have hlen : (concurrentCalls u r db K sched).2.length = K := by
    unfold concurrentCalls
    rw [runSchedule_length]
    simp
  generalize concurrentCalls u r db K sched = final at inv hlen hdone hformula
  obtain ⟨hstored, habsent, _, herrs, _⟩ := inv
  have hle : final.2.countP CallState.succeeded ≤ K := by
    rw [← hlen]; exact List.countP_le_length _
  have herr : ∀ c ∈ final.2, c.succeeded = true ∨
      c = .done (-1) (some "UNIQUE constraint failed: counts.user, counts.repo") := by
    intro c hc
    have hd := hdone c hc
    cases c with
    | start => cases hd
    | selected scan => cases hd
    | done count err =>
      cases err with
      | none => exact Or.inl rfl
      | some e =>
        obtain ⟨h1, h2⟩ := herrs _ hc count e rfl
        right
        rw [h1, h2]
  have hpair : ∀ (pre : List Nat) (i : Nat) (post : List Nat), sched = pre ++ i :: post →
      pre.Nodup → i ∈ pre → (∀ j ∈ pre, j < K) →
      final.2.countP CallState.succeeded + pre.length = K + 1 ∧
      (final.2.countP CallState.succeeded = K ↔ pre.length = 1) := by
    intro pre i post h1 h2 h3 h4
    have h := hformula pre i post h1 h2 h3 h4
    exact ⟨h, by omega⟩
  rcases hstored with ⟨hnone, _⟩ | ⟨n, hn, hcount, hpos⟩
  · exfalso
    cases hl : final.2 with
    | nil => rw [hl] at hlen; simp at hlen; omega
    | cons c rest =>
      have hc : c ∈ final.2 := by rw [hl]; exact List.mem_cons_self _ _
      have hd := hdone c hc
      rcases habsent hnone c hc with h | h <;> rw [h] at hd <;> cases hd
  · refine ⟨?_, ?_, hle, herr, hpair⟩
    · simp only [getCount, queryRowCount, hn, scanInt, hcount]
    · omega

/-- Witness of the amended C3 with three calls: when calls 0 and 1 both run
their `SELECT` before the first `INSERT`, two calls succeed and `getCount`
returns 2; when call 0 returns before the others start, all three succeed. -/
theorem concurrent_incrCount_counts_successes_witness :
    (getCount (concurrentCalls "octo" "hello-world" [] 3 [0, 1, 0, 1, 2, 2]).1
        none "octo" "hello-world").2 =
      ((((concurrentCalls "octo" "hello-world" [] 3 [0, 1, 0, 1, 2, 2]).2.countP
        CallState.succeeded : Nat) : Int), none) ∧
    (concurrentCalls "octo" "hello-world" [] 3 [0, 1, 0, 1, 2, 2]).2.countP
        CallState.succeeded + [0, 1].length = 3 + 1 ∧
    (concurrentCalls "octo" "hello-world" [] 3 [0, 0, 1, 2, 1, 2]).2.countP
        CallState.succeeded + [0].length = 3 + 1 :=
  ⟨(concurrent_incrCount_counts_successes [] "octo" "hello-world" 3 [0, 1, 0, 1, 2, 2]
      (by decide) (by decide) (by decide) (by decide)).1,
   ((concurrent_incrCount_counts_successes [] "octo" "hello-world" 3 [0, 1, 0, 1, 2, 2]
      (by decide) (by decide) (by decide) (by decide)).2.2.2.2 [0, 1] 0 [1, 2, 2] rfl
      (by decide) (by decide) (by decide)).1,
   ((concurrent_incrCount_counts_successes [] "octo" "hello-world" 3 [0, 0, 1, 2, 1, 2]
      (by decide) (by decide) (by decide) (by decide)).2.2.2.2 [0] 0 [1, 2, 1, 2] rfl
      (by decide) (by decide) (by decide)).1⟩

end GhHitsBadge
